import Mathlib

/-!
Verification of the `fs_lint` filesystem linter from `clitools/fs_lint.py`.

The development shallowly embeds the linter's data model and operations:
permission-bit rules, the `TestBase` counter bookkeeping, the fix actions
(renames modelled as explicit effects instead of filesystem mutation), the
rule-selection loop of the `fs_lint` command, the `walk_filesystem`
generator (with the external `pathspec` matcher left abstract), the
statistics block and the final exit code.
-/

set_option autoImplicit false

namespace FsLint

/-! ## Permission bits (from Python's `stat` module) -/

/-- Constant `stat.S_IRUSR` (octal 400). -/
def S_IRUSR : Nat := 0o400

/-- Constant `stat.S_IWUSR` (octal 200). -/
def S_IWUSR : Nat := 0o200

/-- Constant `stat.S_IXUSR` (octal 100). -/
def S_IXUSR : Nat := 0o100

/-- Constant `stat.S_IRGRP` (octal 40). -/
def S_IRGRP : Nat := 0o40

/-- Constant `stat.S_IXGRP` (octal 10). -/
def S_IXGRP : Nat := 0o10

/-- Constant `stat.S_IROTH` (octal 4). -/
def S_IROTH : Nat := 0o4

/-- Constant `stat.S_IWOTH` (octal 2). -/
def S_IWOTH : Nat := 0o2

/-- Constant `stat.S_IXOTH` (octal 1). -/
def S_IXOTH : Nat := 0o1

/-- Constant `stat.S_IFMT` mask (octal 170000). -/
def S_IFMT : Nat := 0o170000

/-- Constant `stat.S_IFSOCK` (octal 140000). -/
def S_IFSOCK : Nat := 0o140000

/-- Constant `stat.S_IFDIR` (octal 040000). -/
def S_IFDIR : Nat := 0o040000

/-- Constant `stat.S_IFREG` (octal 100000). -/
def S_IFREG : Nat := 0o100000

/-- Constant `stat.S_IFLNK` (octal 120000). -/
def S_IFLNK : Nat := 0o120000

/-- Truth of `bool(mode & bit)` in Python: the bitwise AND is non-zero. -/
def hasBit (mode bit : Nat) : Bool := mode &&& bit != 0

/-- Predicate `stat.S_ISSOCK`: the format bits select a socket. -/
def S_ISSOCK (mode : Nat) : Bool := mode &&& S_IFMT == S_IFSOCK

/-- Predicate `stat.S_ISDIR`: the format bits select a directory. -/
def S_ISDIR (mode : Nat) : Bool := mode &&& S_IFMT == S_IFDIR

/-- Predicate `stat.S_ISREG`: the format bits select a regular file. -/
def S_ISREG (mode : Nat) : Bool := mode &&& S_IFMT == S_IFREG

/-- Predicate `stat.S_ISLNK`: the format bits select a symbolic link. -/
def S_ISLNK (mode : Nat) : Bool := mode &&& S_IFMT == S_IFLNK

/-- Snapshot of an `lstat` result as the rules consume it:
`st_mode`, `st_uid`, `st_gid`, `st_size`. -/
structure PathStat where
  mode : Nat
  uid : Nat
  gid : Nat
  size : Nat
  deriving Repr, DecidableEq

/-! ## The `permissions-orphan-executable-bit` rule

Embeds `TestPermissionsOrphanExecutableBit._test` (fs_lint.py lines
322-331): an executable bit set for a permission class whose read bit of
the same class is clear makes the test return `False` (fail). -/

/-- Body of `TestPermissionsOrphanExecutableBit._test`, a function of the
`st_mode` word only; `true` means the path passes. -/
def orphanExecutableBitTest (mode : Nat) : Bool :=
  if hasBit mode S_IXUSR && !(hasBit mode S_IRUSR) then false
  else if hasBit mode S_IXGRP && !(hasBit mode S_IRGRP) then false
  else if hasBit mode S_IXOTH && !(hasBit mode S_IROTH) then false
  else true

/-- Spec-side reading of the orphaned-executable-bit condition: some class
among user/group/other has its execute bit set (bit 6 / 3 / 0) while the
matching read bit of the same class (bit 8 / 5 / 2) is clear. -/
def orphanExecutableBitSpec (mode : Nat) : Prop :=
  (mode.testBit 6 ∧ ¬ mode.testBit 8) ∨
  (mode.testBit 3 ∧ ¬ mode.testBit 5) ∨
  (mode.testBit 0 ∧ ¬ mode.testBit 2)

/-! ## TestBase counter bookkeeping -/

/-- Mutable bookkeeping of a `TestBase` instance: the `failed` and `ok`
path lists and the `total` counter (fs_lint.py lines 37-40). -/
structure TestState where
  failed : List String
  ok : List String
  total : Nat
  deriving Repr, DecidableEq

/-- Freshly constructed `TestBase` state (`__init__`). -/
def TestState.init : TestState := ⟨[], [], 0⟩

/-- Method `TestBase.count_failed`: the length of the `failed` list. -/
def countFailed (s : TestState) : Nat := s.failed.length

/-- Method `TestBase.__call__` (fs_lint.py lines 58-70): increment
`total`, run `_test` via `test`, record the path in `ok` or `failed`, and
return the boolean outcome (`true` = pass). -/
def callTest (t : String → PathStat → Bool) (s : TestState) (p : String)
    (st : PathStat) : TestState × Bool :=
  let s1 : TestState := { s with total := s.total + 1 }
  if t p st then ({ s1 with ok := s1.ok ++ [p] }, true)
  else ({ s1 with failed := s1.failed ++ [p] }, false)

/-! ## The `size-zero` rule

Embeds `TestSizeZero` (fs_lint.py lines 484-510).  The allow-list is the
tuple `('__init__.py', 'LOCK')`; the allow regex is
`(?i).*\.lock|.*\.log|.*\.db-wal|.*\.sqlitedb-wal|.*\.sqlite-wal` used
with `re.match`: an alternative `.*\.X` matches iff the pattern `.X`
occurs (case-insensitively) inside the portion of the name before the
first newline, because `.` does not match a newline and `re.match`
anchors at the start only. -/

/-- Exact allow-listed names of `TestSizeZero.__init__`. -/
def sizeZeroAllowList : List String := ["__init__.py", "LOCK"]

/-- Literal alternatives of the `TestSizeZero` allow regex, lowercased. -/
def sizeZeroAllowPatterns : List (List Char) :=
  [".lock".toList, ".log".toList, ".db-wal".toList,
   ".sqlitedb-wal".toList, ".sqlite-wal".toList]

/-- Check that `pat` is a prefix of `s` (character lists). -/
def startsWithChars : List Char → List Char → Bool
  | _, [] => true
  | [], _ :: _ => false
  | a :: as, b :: bs => a == b && startsWithChars as bs

/-- Check that `pat` occurs as a contiguous run inside `s`. -/
def containsChars : List Char → List Char → Bool
  | [], pat => pat.isEmpty
  | a :: rest, pat => startsWithChars (a :: rest) pat || containsChars rest pat

/-- Truth of `self._allow_regex.match(name)` in `TestSizeZero`: one of the
lowercase pattern literals occurs in the lowercased part of the name
before the first newline. -/
def sizeZeroAllowRegexMatch (name : String) : Bool :=
  let head := (name.toList.takeWhile (fun c => c != '\n')).map Char.toLower
  sizeZeroAllowPatterns.any (fun p => containsChars head p)

/-- Helper `allow_name` of `TestSizeZero._test`. -/
def sizeZeroAllowName (name : String) : Bool :=
  sizeZeroAllowList.contains name || sizeZeroAllowRegexMatch name

/-- Body of `TestSizeZero._test`: a 0-byte entry fails unless it is a
socket or its name is allow-listed. -/
def sizeZeroTest (name : String) (ps : PathStat) : Bool :=
  if ps.size == 0 then
    if S_ISSOCK ps.mode then true
    else if !(sizeZeroAllowName name) then false
    else true
  else true

/-! ## The `name-spaceatstart` and `name-spaceatend` rules

Embeds `TestNameSpaceAtStart` (fs_lint.py lines 375-398) and
`TestNameSpaceAtEnd` (lines 401-424).  The regexes are `^ +(.*)$` and
`^(.*?) +$` used with `re.match`; `.` does not match a newline and `$`
matches at the end of the string or just before one trailing newline.
For `^ +(.*)$` the greedy space run means group 1 is the name with all
leading spaces removed; the match fails when a newline remains anywhere
but the final position.  For `^(.*?) +$` the lazy group means group 1 is
the body with the whole trailing space run removed. -/

/-- The name with its leading space run removed, as `^ +` followed by the
greedy `(.*)` computes it. -/
def dropLeadingSpaces (name : List Char) : List Char :=
  name.dropWhile (fun c => c == ' ')

/-- Result of `re.match(r'^ +(.*)$', name)`: `some g` holds group 1. -/
def spaceAtStartMatch (name : List Char) : Option (List Char) :=
  if name.head? == some ' ' then
    if (dropLeadingSpaces name).contains '\n' then
      if (dropLeadingSpaces name).getLast? == some '\n'
          && !((dropLeadingSpaces name).dropLast.contains '\n') then
        some (dropLeadingSpaces name).dropLast
      else none
    else some (dropLeadingSpaces name)
  else none

/-- The region `$` can close over for `^(.*?) +$`: the whole name, or the
name without one trailing newline. -/
def spaceAtEndBody (name : List Char) : List Char :=
  if name.getLast? == some '\n' then name.dropLast else name

/-- The body with its trailing space run removed, as the lazy `(.*?)`
followed by ` +$` computes it. -/
def dropTrailingSpaces (body : List Char) : List Char :=
  (body.reverse.dropWhile (fun c => c == ' ')).reverse

/-- Result of `re.match(r'^(.*?) +$', name)`: `some g` holds group 1. -/
def spaceAtEndMatch (name : List Char) : Option (List Char) :=
  if (spaceAtEndBody name).getLast? == some ' ' then
    if (dropTrailingSpaces (spaceAtEndBody name)).contains '\n' then none
    else some (dropTrailingSpaces (spaceAtEndBody name))
  else none

/-- Body of `TestNameSpaceAtStart._test`: pass iff the regex does not match. -/
def nameSpaceAtStartTest (name : String) : Bool :=
  (spaceAtStartMatch name.toList).isNone

/-- Body of `TestNameSpaceAtEnd._test`: pass iff the regex does not match. -/
def nameSpaceAtEndTest (name : String) : Bool :=
  (spaceAtEndMatch name.toList).isNone

/-- Outcome of a `fix` method: no rename attempted, a rename to the new
name, or a `ValueError` raised by `Path.with_name` before any rename. -/
inductive FixResult where
  | noop
  | renamed (newName : String)
  | invalidName (newName : String)
  deriving Repr, DecidableEq

/-- Validity check of `pathlib.PurePath.with_name`: an empty name (or one
containing a path separator) raises `ValueError`. -/
def withNameValid (n : String) : Bool := n != "" && !(n.toList.contains '/')

/-- Method `TestNameSpaceAtStart.fix` (lines 392-398): when the regex
matches, rename the path to group 1 via `with_name`; otherwise no-op. -/
def nameSpaceAtStartFix (name : String) : FixResult :=
  match spaceAtStartMatch name.toList with
  | none => .noop
  | some g =>
      if withNameValid (String.mk g) then .renamed (String.mk g)
      else .invalidName (String.mk g)

/-- Method `TestNameSpaceAtEnd.fix` (lines 418-424): when the regex
matches, rename the path to group 1 via `with_name`; otherwise no-op. -/
def nameSpaceAtEndFix (name : String) : FixResult :=
  match spaceAtEndMatch name.toList with
  | none => .noop
  | some g =>
      if withNameValid (String.mk g) then .renamed (String.mk g)
      else .invalidName (String.mk g)

/-! ## Fix actions as explicit effect traces

A fix's interaction with the outside world is modelled as the list of
effects it performs: `click.echo` output and `os.rename` calls.  The
external helpers `slugify` and `unidecode` are abstracted as function
parameters. -/

/-- One observable side effect of a fix action. -/
inductive Effect where
  | echo (s : String)
  | renameFS (src dst : String)
  deriving Repr, DecidableEq

/-- Whether an effect mutates the filesystem. -/
def Effect.isRename : Effect → Bool
  | .renameFS _ _ => true
  | .echo _ => false

/-- Python `str.strip()`: remove leading and trailing whitespace. -/
def pyStrip (s : String) : String := s.trim

/-- Method `TestNameUpperCaseExtension.fix` (fs_lint.py lines 305-309): a
safe fix that really renames, to the stem plus the lowercased suffix. -/
def nameUpperCaseExtensionFix (parent stem suffix : String) : List Effect :=
  [.renameFS (parent ++ "/" ++ stem ++ suffix)
    (parent ++ "/" ++ stem ++ suffix.toLower)]

/-- Method `TestNameDangerous.experimentalfix` (fs_lint.py lines 475-481):
computes a candidate name and prints the candidate path; the
`os.rename` call is commented out in the source. -/
def nameDangerousExperimentalFix (parent stem suffix : String) : List Effect :=
  [.echo (parent ++ "/" ++ ((pyStrip stem).replace " -" "-" ++ suffix))]

/-- Method `TestNameLength32.experimentalfix` (fs_lint.py lines 531-544):
slugifies the stem to fit 32 characters, prints the candidate name, and
prints an error when the candidate already exists; the `path.rename` call
is commented out in the source.  `slugifyFn` abstracts
`slugify(stem, max_length, ...)`; `existsAt` abstracts `Path.exists`. -/
def nameLength32ExperimentalFix (slugifyFn : String → Nat → String)
    (existsAt : String → Bool) (parent stem suffix : String) : List Effect :=
  .echo (slugifyFn stem (32 - suffix.length) ++ suffix) ::
    (if existsAt (parent ++ "/" ++ (slugifyFn stem (32 - suffix.length) ++ suffix)) then
      [.echo "ERROR: Already exists!"]
    else [])

/-- Method `TestNameNonAscii.experimentalfix` (fs_lint.py lines 630-639):
when the transliterated name differs, prints the proposed rename; the
`os.rename` call is commented out in the source.  `unidecodeFn` abstracts
`unidecode`. -/
def nameNonAsciiExperimentalFix (unidecodeFn : String → String)
    (parent name : String) : List Effect :=
  if unidecodeFn name != name then
    [.echo ("renaming \"" ++ parent ++ "/" ++ name ++ "\" to \"" ++
      parent ++ "/" ++ ((unidecodeFn name).replace "/" "_") ++ "\"")]
  else []

/-! ## The orchestrator: evaluation loop, statistics, exit code

Embeds `FSLinter.__call__` (fs_lint.py lines 672-698) at the level of
counter state: each registered rule is invoked once per path through
`TestBase.__call__`.  The printing of FAIL/OK lines is not modelled; the
statistics block and the exit condition (lines 824-835) are. -/

/-- An active rule as the orchestrator holds it: the class `name`
attribute, the `_test` predicate (receiving the path and the one
`lstat` snapshot), and the mutable `TestBase` state. -/
structure LintRule where
  name : String
  test : String → PathStat → Bool
  state : TestState

/-- One `FSLinter.__call__`: run every registered rule on the path with
the single `lstat` snapshot, threading each rule's counter state. -/
def lintPath : List LintRule → String → PathStat → List LintRule
  | [], _, _ => []
  | r :: rs, p, st =>
      { r with state := (callTest r.test r.state p st).1 } :: lintPath rs p st

/-- The scan loop of `fs_lint` (line 821-822): evaluate every yielded
path in order. -/
def runLint : List LintRule → List (String × PathStat) → List LintRule
  | rules, [] => rules
  | rules, pr :: rest => runLint (lintPath rules pr.1 pr.2) rest

/-- State of one rule after a sequence of `__call__` invocations. -/
def foldState (t : String → PathStat → Bool) :
    TestState → List (String × PathStat) → TestState
  | s, [] => s
  | s, pr :: rest => foldState t (callTest t s pr.1 pr.2).1 rest

/-- Final exit status of `fs_lint` (lines 834-835): `sys.exit(1)` when
any rule recorded a failure, implicit exit 0 otherwise. -/
def exitCode (rules : List LintRule) : Nat :=
  if rules.any (fun r => decide (countFailed r.state > 0)) then 1 else 0

/-- Text content of one statistics line (fs_lint.py lines 826-833,
colors stripped): a failing rule shows `count_failed` and
`total - count_failed`; a clean rule shows `total`. -/
def statLine (name : String) (failedCnt total : Nat) : String :=
  if failedCnt > 0 then
    name ++ ": " ++ toString failedCnt ++ "/" ++ toString (total - failedCnt)
  else
    name ++ ": " ++ toString total

/-- The `--statistics` block (fs_lint.py lines 824-833): a header line
followed by one line per registered rule. -/
def statisticsLines (rules : List LintRule) : List String :=
  "Statistics" :: rules.map (fun r => statLine r.name (countFailed r.state) r.state.total)

/-- The permissions-orphan-executable-bit rule as a fresh `LintRule`. -/
def orphanRule : LintRule :=
  ⟨"permissions-orphan-executable-bit",
   fun _ ps => orphanExecutableBitTest ps.mode, TestState.init⟩

/-! ## Rule selection of the `fs_lint` command -/

/-- The rule-selection loop of `fs_lint` (lines 814-819): when `--limit`
is non-empty, register exactly the registry names contained in it
(`--skip-test` is ignored); otherwise register every registry name not in
`--skip-test`.  Names in `--limit`/`--skip-test` that are not registry
keys are never consulted. -/
def selectActive (registryKeys limit skipTest : List String) : List String :=
  registryKeys.filter (fun k =>
    if limit.isEmpty then !(skipTest.contains k) else limit.contains k)

/-- The names in `linterdex`, in registration (source) order. -/
def registryNames : List String :=
  ["type-non-regular", "permissions-world-writable", "permissions-world-readable",
   "permissions-suid", "type-broken-symlink", "permissions-sgid",
   "permissions-world-readable-dir", "permissions-owner", "permissions-group",
   "permissions-wrongly-executable", "name-uppercase-extension",
   "permissions-orphan-executable-bit", "name-tempfile", "name-controlchars",
   "name-spaceatstart", "name-spaceatend", "name-spacedouble", "name-dangerous",
   "size-zero", "name-len32", "name-non-ascii"]

/-- A registry fragment built from the rules embedded in this file, used
to instantiate the run model on concrete inputs; the name-based rules
receive the path's final component as the string argument. -/
def sampleRegistry : List (String × (String → PathStat → Bool)) :=
  [("permissions-orphan-executable-bit", fun _ ps => orphanExecutableBitTest ps.mode),
   ("size-zero", fun name ps => sizeZeroTest name ps),
   ("name-spaceatstart", fun name _ => nameSpaceAtStartTest name),
   ("name-spaceatend", fun name _ => nameSpaceAtEndTest name)]

/-- Observable outcome of one `fs_lint` run on already-validated paths. -/
structure RunOutcome where
  configError : Bool
  pathsScanned : Nat
  exit : Nat
  deriving Repr, DecidableEq

/-- The `fs_lint` command body after option parsing (fs_lint.py lines
814-835), for a path list that `click.Path(exists=True)` has accepted:
select the active rules, instantiate them fresh, scan every path, and
exit 1 exactly when a rule recorded a failure.  The source performs no
validation of the names given to `--limit`/`--skip-test`, so no
configuration-error outcome exists in this region of the code and
`configError` is constantly `false`. -/
def fsLintRun (registry : List (String × (String → PathStat → Bool)))
    (limit skipTest : List String) (paths : List (String × PathStat)) : RunOutcome :=
  let activeNames := selectActive (registry.map Prod.fst) limit skipTest
  let rules := (registry.filter (fun rp => activeNames.contains rp.1)).map
    (fun rp => LintRule.mk rp.1 rp.2 TestState.init)
  { configError := false
    pathsScanned := paths.length
    exit := exitCode (runLint rules paths) }

/-! ## The Walker

Embeds `walk_filesystem` (fs_lint.py lines 716-742).  `os.walk` is
top-down: it visits a directory, exposes its subdirectory-name and
file-name listings (in operating-system order, unsorted), honours the
in-place pruning of the `dirs` list, and then descends into the surviving
subdirectories in order.  The external `pathspec` matcher is abstracted
as `WalkEnv.matchFn`; a directory's `.gitignore` contents (`readlines`)
as `WalkEnv.gitignoreLines`. -/

/-- A filesystem subtree with listings in operating-system order. -/
inductive FSNode where
  | file (name : String)
  | dir (name : String) (children : List FSNode)
  deriving Repr

/-- Subdirectory entries of a listing, in listing order (`dirs`). -/
def dirEntries : List FSNode → List (String × List FSNode)
  | [] => []
  | .file _ :: es => dirEntries es
  | .dir n cs :: es => (n, cs) :: dirEntries es

/-- File entries of a listing, in listing order (`files`). -/
def fileEntries : List FSNode → List String
  | [] => []
  | .file n :: es => n :: fileEntries es
  | .dir _ _ :: es => fileEntries es

/-- Abstraction of the external collaborators of `walk_filesystem`:
`matchFn patterns name` stands for
`pathspec.PathSpec(map(GitWildMatchPattern, patterns)).match_file(name)`
and `gitignoreLines root` for `readlines(os.path.join(root, '.gitignore'))`. -/
structure WalkEnv where
  matchFn : List String → String → Bool
  gitignoreLines : String → List String

/-- Effective ignore spec of one directory (fs_lint.py lines 721-730):
when VCS ignores are consulted and the directory's listing contains a
`.gitignore`, compile the global exclude patterns plus that file's lines;
otherwise fall back to the globally compiled spec. -/
def localSpec (env : WalkEnv) (skipVcs : Bool) (exclude : List String)
    (root : String) (files : List String) : String → Bool :=
  if !skipVcs && files.contains ".gitignore" then
    env.matchFn (exclude ++ env.gitignoreLines root)
  else
    env.matchFn exclude

mutual

/-- Per-directory body of `walk_filesystem` at one `os.walk` triple
(fs_lint.py lines 720-738): build the local ignore spec, prune ignored
directory and file names by bare name, yield the surviving directory
paths then the surviving file paths — both in listing order — and then
descend into the surviving subdirectories in order. -/
def walkDir (env : WalkEnv) (skipVcs : Bool) (exclude : List String)
    (root : String) (children : List FSNode) : List String :=
  ((dirEntries children).filter (fun d =>
      !(localSpec env skipVcs exclude root (fileEntries children) d.1))).map
    (fun d => root ++ "/" ++ d.1)
  ++ ((fileEntries children).filter (fun f =>
      !(localSpec env skipVcs exclude root (fileEntries children) f))).map
    (fun f => root ++ "/" ++ f)
  ++ walkInto env skipVcs exclude
      (localSpec env skipVcs exclude root (fileEntries children)) root children
termination_by (sizeOf children, 1)

/-- Depth-first descent of `os.walk` into the surviving subdirectories in
listing order; `lm` is the parent directory's effective ignore spec (the
in-place `dirs[:]` pruning decides which subdirectories are entered). -/
def walkInto (env : WalkEnv) (skipVcs : Bool) (exclude : List String)
    (lm : String → Bool) (root : String) : List FSNode → List String
  | [] => []
  | .file _ :: es => walkInto env skipVcs exclude lm root es
  | .dir n cs :: es =>
      (if lm n then [] else walkDir env skipVcs exclude (root ++ "/" ++ n) cs)
      ++ walkInto env skipVcs exclude lm root es
termination_by l => (sizeOf l, 0)

end

/-- One root argument of `walk_filesystem`: an existing directory with
its subtree, an existing regular file, or anything else. -/
inductive RootArg where
  | dirRoot (path : String) (children : List FSNode)
  | fileRoot (path : String)
  | badRoot (path : String)

/-- Generator `walk_filesystem` (fs_lint.py lines 716-742): a directory
root is walked, a file root is yielded directly, and any other root
raises `ValueError`. -/
def walkFilesystem (env : WalkEnv) (skipVcs : Bool) (exclude : List String) :
    List RootArg → Except String (List String)
  | [] => .ok []
  | .dirRoot p cs :: rest =>
      (walkFilesystem env skipVcs exclude rest).map
        (fun tail => walkDir env skipVcs exclude p cs ++ tail)
  | .fileRoot p :: rest =>
      (walkFilesystem env skipVcs exclude rest).map (fun tail => p :: tail)
  | .badRoot p :: _ => .error ("Invalid argument " ++ p)

/-- Walk environment in which no pattern matches anything (an empty
exclude set) and every `.gitignore` read yields nothing. -/
def trivialEnv : WalkEnv := ⟨fun _ _ => false, fun _ => []⟩

end FsLint

namespace FsLint

lemma hasBit_two_pow (m i : Nat) : hasBit m (2 ^ i) = m.testBit i := by
  simp only [hasBit, Nat.and_two_pow]
  cases h : m.testBit i <;> simp [h, Nat.pow_eq_zero]

lemma hasBit_IXUSR (m : Nat) : hasBit m S_IXUSR = m.testBit 6 := by
  have : S_IXUSR = 2 ^ 6 := rfl
  rw [this, hasBit_two_pow]

lemma hasBit_IRUSR (m : Nat) : hasBit m S_IRUSR = m.testBit 8 := by
  have : S_IRUSR = 2 ^ 8 := rfl
  rw [this, hasBit_two_pow]

lemma hasBit_IXGRP (m : Nat) : hasBit m S_IXGRP = m.testBit 3 := by
  have : S_IXGRP = 2 ^ 3 := rfl
  rw [this, hasBit_two_pow]

lemma hasBit_IRGRP (m : Nat) : hasBit m S_IRGRP = m.testBit 5 := by
  have : S_IRGRP = 2 ^ 5 := rfl
  rw [this, hasBit_two_pow]

lemma hasBit_IXOTH (m : Nat) : hasBit m S_IXOTH = m.testBit 0 := by
  have : S_IXOTH = 2 ^ 0 := rfl
  rw [this, hasBit_two_pow]

lemma hasBit_IROTH (m : Nat) : hasBit m S_IROTH = m.testBit 2 := by
  have : S_IROTH = 2 ^ 2 := rfl
  rw [this, hasBit_two_pow]

/-- C5: the permissions-orphan-executable-bit rule fails exactly when some
class among user/group/other has its execute bit set and the matching read
bit of the same class clear; mode 0o661 fails, 0o766 passes, 0o644
passes. -/
theorem orphanExecutableBit_exact :
    (∀ m : Nat, orphanExecutableBitTest m = false ↔ orphanExecutableBitSpec m) ∧
    orphanExecutableBitTest 0o661 = false ∧
    orphanExecutableBitTest 0o766 = true ∧
    orphanExecutableBitTest 0o644 = true := by
  refine ⟨fun m => ?_, by decide, by decide, by decide⟩
  simp only [orphanExecutableBitTest, orphanExecutableBitSpec, hasBit_IXUSR,
    hasBit_IRUSR, hasBit_IXGRP, hasBit_IRGRP, hasBit_IXOTH, hasBit_IROTH]
  cases h1 : m.testBit 6 <;> cases h2 : m.testBit 8 <;> cases h3 : m.testBit 3 <;>
    cases h4 : m.testBit 5 <;> cases h5 : m.testBit 0 <;> cases h6 : m.testBit 2 <;>
    simp_all

/-- C9 counterexample: one `__call__` invocation of the
permissions-orphan-executable-bit rule on a passing path (a regular file
with mode 0o644) increments `total` but leaves `count_failed` unchanged,
so `failedCount` does not increment once per invocation regardless of
outcome. -/
theorem callTest_pass_leaves_countFailed :
    (callTest (fun _ ps => orphanExecutableBitTest ps.mode) TestState.init
        "f" ⟨0o100644, 0, 0, 10⟩).1.total = TestState.init.total + 1 ∧
    countFailed (callTest (fun _ ps => orphanExecutableBitTest ps.mode)
        TestState.init "f" ⟨0o100644, 0, 0, 10⟩).1 = countFailed TestState.init ∧
    ¬ countFailed (callTest (fun _ ps => orphanExecutableBitTest ps.mode)
        TestState.init "f" ⟨0o100644, 0, 0, 10⟩).1 = countFailed TestState.init + 1 := by
  refine ⟨by decide, by decide, by decide⟩

/-- C9 amended: per `__call__` invocation, `total` increments exactly once
regardless of outcome, while `count_failed` increments exactly once when
the evaluation fails and is unchanged when it passes (and symmetrically
for the `ok` list). -/
theorem callTest_counters (t : String → PathStat → Bool) (s : TestState)
    (p : String) (st : PathStat) :
    (callTest t s p st).1.total = s.total + 1 ∧
    countFailed (callTest t s p st).1 =
      countFailed s + (if (callTest t s p st).2 then 0 else 1) ∧
    (callTest t s p st).1.ok.length =
      s.ok.length + (if (callTest t s p st).2 then 1 else 0) := by
  cases h : t p st <;> simp [callTest, countFailed, h]

/-- C6: the size-zero rule fails exactly for entries of size 0 that are
not sockets and whose name is not allow-listed; a 0-byte `data.lock`
passes and a 0-byte `report.txt` fails. -/
theorem sizeZero_exact :
    (∀ (name : String) (ps : PathStat), sizeZeroTest name ps = false ↔
      ps.size = 0 ∧ S_ISSOCK ps.mode = false ∧ sizeZeroAllowName name = false) ∧
    sizeZeroTest "data.lock" ⟨0o100644, 0, 0, 0⟩ = true ∧
    sizeZeroTest "report.txt" ⟨0o100644, 0, 0, 0⟩ = false := by
  refine ⟨fun name ps => ?_, by decide, by decide⟩
  simp only [sizeZeroTest]
  split_ifs with h1 h2 h3 <;>
    simp_all [beq_iff_eq, Bool.not_eq_true, -Bool.forall_bool]

lemma head?_dropLeadingSpaces {l : List Char} {c : Char}
    (h : (dropLeadingSpaces l).head? = some c) : (c == ' ') = false := by
  have h2 := List.head?_dropWhile_not (fun x => x == ' ') l
  unfold dropLeadingSpaces at h
  rw [h] at h2
  simpa using h2

lemma head?_of_dropLast {α} {l : List α} {c : α}
    (h : l.dropLast.head? = some c) : l.head? = some c := by
  cases l with
  | nil => simp at h
  | cons a t =>
      cases t with
      | nil => simp at h
      | cons b t2 =>
          rw [List.dropLast_cons₂] at h
          simp at h ⊢
          exact h

lemma mk_ne_empty_iff (g : List Char) : (String.mk g != "") = true ↔ g ≠ [] := by
  constructor
  · intro h hg
    subst hg
    simp at h
  · intro hg
    simp only [bne_iff_ne, ne_eq]
    intro hmk
    exact hg (congrArg String.data hmk)

/-- C7: the name-spaceatstart fix renames a name with leading spaces to
the same name with all leading spaces removed, the renamed name passes
the rule, applying the fix to a compliant name is a no-op, and in general
any name produced by a successful fix rename passes the rule. -/
theorem nameSpaceAtStart_fix_behavior :
    nameSpaceAtStartFix " testfile" = .renamed "testfile" ∧
    nameSpaceAtStartTest "testfile" = true ∧
    nameSpaceAtStartFix "testfile" = .noop ∧
    ∀ name newName : String, nameSpaceAtStartFix name = .renamed newName →
      nameSpaceAtStartTest newName = true := by
  refine ⟨by decide, by decide, by decide, fun name newName h => ?_⟩
  unfold nameSpaceAtStartFix at h
  split at h
  · exact absurd h (by simp)
  · rename_i g hm
    split_ifs at h with hv
    · have hnew : newName = String.mk g := by
        injection h with h1
        exact h1.symm
      have hg : g ≠ [] := by
        have := (mk_ne_empty_iff g).mp (by
          have hv2 := hv
          unfold withNameValid at hv2
          exact (Bool.and_eq_true _ _).mp hv2 |>.1)
        exact this
      obtain ⟨c, rest, hcr⟩ : ∃ c rest, g = c :: rest := by
        cases g with
        | nil => exact absurd rfl hg
        | cons c rest => exact ⟨c, rest, rfl⟩
      have hhead : g.head? = some c := by rw [hcr]; rfl
      have hc : (c == ' ') = false := by
        unfold spaceAtStartMatch at hm
        split_ifs at hm with h1 h2 h3
        · have hg2 : (dropLeadingSpaces name.toList).dropLast = g := by
            injection hm
          apply head?_dropLeadingSpaces (l := name.toList)
          apply head?_of_dropLast
          rw [hg2]
          exact hhead
        · have hg2 : dropLeadingSpaces name.toList = g := by
            injection hm
          apply head?_dropLeadingSpaces (l := name.toList)
          rw [hg2]
          exact hhead
      have htl : newName.toList = g := by rw [hnew]; rfl
      unfold nameSpaceAtStartTest spaceAtStartMatch
      rw [htl, hhead]
      simp [hc]

/-- C10: on a file whose name consists entirely of spaces, the
name-spaceatstart and name-spaceatend fixes both compute an empty
replacement name, raising the `Path.with_name` invalid-name error instead
of performing any rename. -/
theorem allSpaceName_fix_raises :
    nameSpaceAtStartFix "   " = .invalidName "" ∧
    nameSpaceAtEndFix "   " = .invalidName "" ∧
    (∀ s : String, nameSpaceAtStartFix "   " ≠ .renamed s) ∧
    (∀ s : String, nameSpaceAtEndFix "   " ≠ .renamed s) := by
  refine ⟨by decide, by decide, fun s h => ?_, fun s h => ?_⟩
  · rw [(by decide : nameSpaceAtStartFix "   " = FixResult.invalidName "")] at h
    exact absurd h (by simp)
  · rw [(by decide : nameSpaceAtEndFix "   " = FixResult.invalidName "")] at h
    exact absurd h (by simp)

/-- Witness for the general clause of the name-spaceatstart fix theorem,
at the concrete name with two leading spaces. -/
theorem nameSpaceAtStart_fix_behavior_witness :
    nameSpaceAtStartFix "  ab" = .renamed "ab" ∧ nameSpaceAtStartTest "ab" = true :=
  ⟨by decide, nameSpaceAtStart_fix_behavior.2.2.2 "  ab" "ab" (by decide)⟩

/-- C8: the experimental fixes of name-dangerous, name-len32 and
name-non-ascii only print; for every input (and every behaviour of the
abstracted `slugify`, `unidecode` and existence lookups) their effect
traces contain no rename. -/
theorem experimentalFixes_print_only :
    (∀ parent stem suffix : String,
      (nameDangerousExperimentalFix parent stem suffix).all
        (fun e => !(e.isRename)) = true) ∧
    (∀ (slugifyFn : String → Nat → String) (existsAt : String → Bool)
        (parent stem suffix : String),
      (nameLength32ExperimentalFix slugifyFn existsAt parent stem suffix).all
        (fun e => !(e.isRename)) = true) ∧
    (∀ (unidecodeFn : String → String) (parent name : String),
      (nameNonAsciiExperimentalFix unidecodeFn parent name).all
        (fun e => !(e.isRename)) = true) := by
  refine ⟨fun parent stem suffix => ?_, fun sf ex parent stem suffix => ?_,
    fun ud parent name => ?_⟩
  · simp [nameDangerousExperimentalFix, Effect.isRename]
  · unfold nameLength32ExperimentalFix
    split_ifs <;> simp [Effect.isRename]
  · unfold nameNonAsciiExperimentalFix
    split_ifs <;> simp [Effect.isRename]

lemma countFailed_callTest (t : String → PathStat → Bool) (s : TestState)
    (p : String) (st : PathStat) :
    countFailed (callTest t s p st).1 = countFailed s + (if t p st then 0 else 1) := by
  cases h : t p st <;> simp [callTest, countFailed, h]

lemma lintPath_eq_map (rules : List LintRule) (p : String) (st : PathStat) :
    lintPath rules p st =
      rules.map (fun r => { r with state := (callTest r.test r.state p st).1 }) := by
  induction rules with
  | nil => rfl
  | cons r rs ih => simp [lintPath, ih]

lemma runLint_eq_map (paths : List (String × PathStat)) (rules : List LintRule) :
    runLint rules paths =
      rules.map (fun r => { r with state := foldState r.test r.state paths }) := by
  induction paths generalizing rules with
  | nil => simp [runLint, foldState]
  | cons pr rest ih =>
      rw [runLint, lintPath_eq_map, ih, List.map_map]
      rfl

lemma countFailed_foldState (t : String → PathStat → Bool)
    (paths : List (String × PathStat)) (s : TestState) :
    countFailed (foldState t s paths) =
      countFailed s + paths.countP (fun pr => !(t pr.1 pr.2)) := by
  induction paths generalizing s with
  | nil => simp [foldState]
  | cons pr rest ih =>
      rw [foldState, ih, countFailed_callTest, List.countP_cons]
      cases h : t pr.1 pr.2
      · simp [h]
        omega
      · simp [h]

/-- C1: for a run starting from fresh rule states, the exit status is 1
exactly when some active rule failed on some evaluated path, and 0
exactly when no active rule failed anywhere. -/
theorem exit_code_iff_failures (rules : List LintRule)
    (paths : List (String × PathStat))
    (hinit : ∀ r ∈ rules, r.state = TestState.init) :
    (exitCode (runLint rules paths) = 1 ↔
      ∃ r ∈ rules, ∃ pr ∈ paths, r.test pr.1 pr.2 = false) ∧
    (exitCode (runLint rules paths) = 0 ↔
      ∀ r ∈ rules, ∀ pr ∈ paths, r.test pr.1 pr.2 = true) := by
  have key : ((runLint rules paths).any
      (fun r => decide (countFailed r.state > 0)) = true) ↔
      ∃ r ∈ rules, ∃ pr ∈ paths, r.test pr.1 pr.2 = false := by
    rw [runLint_eq_map, List.any_map, List.any_eq_true]
    constructor
    · rintro ⟨r, hr, hcnt⟩
      refine ⟨r, hr, ?_⟩
      simp only [Function.comp, decide_eq_true_eq] at hcnt
      rw [countFailed_foldState, hinit r hr] at hcnt
      simp only [countFailed, TestState.init, List.length_nil, Nat.zero_add] at hcnt
      obtain ⟨pr, hpr, hfail⟩ := List.countP_pos_iff.mp hcnt
      exact ⟨pr, hpr, by simpa using hfail⟩
    · rintro ⟨r, hr, pr, hpr, hfail⟩
      refine ⟨r, hr, ?_⟩
      simp only [Function.comp, decide_eq_true_eq]
      rw [countFailed_foldState, hinit r hr]
      simp only [countFailed, TestState.init, List.length_nil, Nat.zero_add]
      exact List.countP_pos_iff.mpr ⟨pr, hpr, by simp [hfail]⟩
  constructor
  · rw [← key]
    unfold exitCode
    split_ifs with h <;> simp [h]
  · unfold exitCode
    split_ifs with h <;> rw [key] at h
    · have hne : ¬ ∀ r ∈ rules, ∀ pr ∈ paths, r.test pr.1 pr.2 = true := by
        intro hall
        obtain ⟨r, hr, pr, hpr, hfail⟩ := h
        rw [hall r hr pr hpr] at hfail
        exact Bool.noConfusion hfail
      exact iff_of_false (by decide) hne
    · have hall : ∀ r ∈ rules, ∀ pr ∈ paths, r.test pr.1 pr.2 = true := by
        intro r hr pr hpr
        cases hb : r.test pr.1 pr.2 with
        | true => rfl
        | false => exact absurd ⟨r, hr, pr, hpr, hb⟩ h
      exact iff_of_true rfl hall

/-- Witness for the exit-code theorem: one fresh
permissions-orphan-executable-bit rule over one failing path (mode
0o100111) exits 1. -/
theorem exit_code_iff_failures_witness :
    (∀ r ∈ [orphanRule], r.state = TestState.init) ∧
    ((exitCode (runLint [orphanRule] [("bad", ⟨0o100111, 0, 0, 5⟩)]) = 1 ↔
      ∃ r ∈ [orphanRule],
        ∃ pr ∈ [("bad", (⟨0o100111, 0, 0, 5⟩ : PathStat))], r.test pr.1 pr.2 = false) ∧
     (exitCode (runLint [orphanRule] [("bad", ⟨0o100111, 0, 0, 5⟩)]) = 0 ↔
      ∀ r ∈ [orphanRule],
        ∀ pr ∈ [("bad", (⟨0o100111, 0, 0, 5⟩ : PathStat))], r.test pr.1 pr.2 = true)) :=
  ⟨fun r hr => by rw [List.mem_singleton.mp hr]; rfl,
   exit_code_iff_failures [orphanRule] [("bad", ⟨0o100111, 0, 0, 5⟩)]
     (fun r hr => by rw [List.mem_singleton.mp hr]; rfl)⟩

/-- C2 counterexample: a run whose `--limit` names only the unknown rule
`no-such-rule` raises no configuration error, scans its path, and exits
0 — the selection loop silently matches nothing, both against the full
registry name list and in the run model. -/
theorem unknown_limit_not_fatal :
    selectActive registryNames ["no-such-rule"] [] = [] ∧
    (fsLintRun sampleRegistry ["no-such-rule"] []
        [("f", ⟨0o100644, 0, 0, 3⟩)]).configError = false ∧
    (fsLintRun sampleRegistry ["no-such-rule"] []
        [("f", ⟨0o100644, 0, 0, 3⟩)]).pathsScanned = 1 ∧
    (fsLintRun sampleRegistry ["no-such-rule"] []
        [("f", ⟨0o100644, 0, 0, 3⟩)]).exit = 0 := by
  refine ⟨by decide, rfl, rfl, by decide⟩

/-- C2 amended: names in `--limit` that match no registry key are
silently ignored rather than fatal; when `--limit` is non-empty and
contains no registry key, no rule becomes active, every path is still
scanned, no error is raised, and the process exits 0. -/
theorem fsLintRun_ignores_unknown_limit
    (registry : List (String × (String → PathStat → Bool)))
    (limit skipTest : List String) (paths : List (String × PathStat))
    (hunknown : ∀ k ∈ registry.map Prod.fst, k ∉ limit) (hne : limit ≠ []) :
    (fsLintRun registry limit skipTest paths).configError = false ∧
    (fsLintRun registry limit skipTest paths).pathsScanned = paths.length ∧
    (fsLintRun registry limit skipTest paths).exit = 0 := by
  have hsel : selectActive (registry.map Prod.fst) limit skipTest = [] := by
    rw [selectActive, List.filter_eq_nil_iff]
    intro k hk
    rw [if_neg (by simpa using hne)]
    simpa using hunknown k hk
  have hrules : (registry.filter (fun rp =>
      (selectActive (registry.map Prod.fst) limit skipTest).contains rp.1)) = [] := by
    rw [hsel, List.filter_eq_nil_iff]
    intro rp _
    simp
  refine ⟨rfl, rfl, ?_⟩
  show exitCode (runLint ((registry.filter (fun rp =>
    (selectActive (registry.map Prod.fst) limit skipTest).contains rp.1)).map
    (fun rp => LintRule.mk rp.1 rp.2 TestState.init)) paths) = 0
  rw [hrules]
  simp only [List.map_nil]
  rw [runLint_eq_map]
  rfl

/-- Witness for the amended unknown-limit theorem at the sample registry
and a one-path scan. -/
theorem fsLintRun_ignores_unknown_limit_witness :
    (∀ k ∈ sampleRegistry.map Prod.fst, k ∉ (["zzz-unknown"] : List String)) ∧
    (["zzz-unknown"] : List String) ≠ [] ∧
    ((fsLintRun sampleRegistry ["zzz-unknown"] []
        [("f", ⟨0o100644, 0, 0, 3⟩)]).configError = false ∧
     (fsLintRun sampleRegistry ["zzz-unknown"] []
        [("f", ⟨0o100644, 0, 0, 3⟩)]).pathsScanned =
       [("f", (⟨0o100644, 0, 0, 3⟩ : PathStat))].length ∧
     (fsLintRun sampleRegistry ["zzz-unknown"] []
        [("f", ⟨0o100644, 0, 0, 3⟩)]).exit = 0) :=
  ⟨by decide, by decide,
   fsLintRun_ignores_unknown_limit sampleRegistry ["zzz-unknown"] []
     [("f", ⟨0o100644, 0, 0, 3⟩)] (by decide) (by decide)⟩

/-- C4 counterexample: after a run of the
permissions-orphan-executable-bit rule over two paths (one failing), the
statistics line reads `1/1` — the failed count over the passed count —
while a line showing the failed count and the total would read `1/2`,
which appears nowhere in the output. -/
theorem statistics_shows_passed_not_total :
    statisticsLines (runLint [orphanRule]
        [("bad", ⟨0o100111, 0, 0, 5⟩), ("good", ⟨0o100644, 0, 0, 5⟩)]) =
      ["Statistics", "permissions-orphan-executable-bit: 1/1"] ∧
    "permissions-orphan-executable-bit: 1/2" ∉
      statisticsLines (runLint [orphanRule]
        [("bad", ⟨0o100111, 0, 0, 5⟩), ("good", ⟨0o100644, 0, 0, 5⟩)]) := by
  constructor <;> decide

/-- C4 amended: the statistics block prints a `Statistics` header then
exactly one line per active rule; a rule with failures shows its failed
count and its passed count (total minus failed), a rule without failures
shows its total alone. -/
theorem statisticsLines_format (rules : List LintRule) :
    (statisticsLines rules).length = rules.length + 1 ∧
    (statisticsLines rules).head? = some "Statistics" ∧
    ∀ i : Fin rules.length,
      (statisticsLines rules).get
          ⟨i.1 + 1, by simp [statisticsLines]⟩ =
        (if 0 < countFailed (rules.get i).state then
          (rules.get i).name ++ ": " ++ toString (countFailed (rules.get i).state)
            ++ "/" ++
            toString ((rules.get i).state.total - countFailed (rules.get i).state)
        else (rules.get i).name ++ ": " ++ toString (rules.get i).state.total) := by
  refine ⟨by simp [statisticsLines], rfl, fun i => ?_⟩
  simp [statisticsLines, statLine]

/-- C3 counterexample: a directory whose operating-system listing is
`b.txt` before `a.txt` has its surviving files yielded in that unsorted
order, both by the per-directory walker and by `walk_filesystem` on the
directory root. -/
theorem walker_files_not_sorted :
    walkDir trivialEnv true [] "r" [.file "b.txt", .file "a.txt"] =
      ["r/b.txt", "r/a.txt"] ∧
    walkFilesystem trivialEnv true [] [.dirRoot "r" [.file "b.txt", .file "a.txt"]] =
      .ok ["r/b.txt", "r/a.txt"] ∧
    ¬ List.Sorted (fun a b : String => a ≤ b)
        (walkDir trivialEnv true [] "r" [.file "b.txt", .file "a.txt"]) := by
  have h : walkDir trivialEnv true [] "r" [.file "b.txt", .file "a.txt"] =
      ["r/b.txt", "r/a.txt"] := by
    simp [walkDir, walkInto, localSpec, dirEntries, fileEntries, trivialEnv]
  refine ⟨h, ?_, ?_⟩
  · rw [walkFilesystem, walkFilesystem, h]
    rfl
  · rw [h]
    simp [List.Sorted, List.pairwise_cons]
    decide

/-- C3 amended: for every visited directory the walker yields the
surviving subdirectory paths and then the surviving file paths, each in
the operating-system listing order — the surviving file names form an
order-preserving subsequence of the listing, with no sorting applied. -/
theorem walkDir_yield_structure (env : WalkEnv) (skipVcs : Bool)
    (exclude : List String) (root : String) (children : List FSNode) :
    (∃ descent,
      walkDir env skipVcs exclude root children =
        ((dirEntries children).filter (fun d =>
            !(localSpec env skipVcs exclude root (fileEntries children) d.1))).map
          (fun d => root ++ "/" ++ d.1)
        ++ ((fileEntries children).filter (fun f =>
            !(localSpec env skipVcs exclude root (fileEntries children) f))).map
          (fun f => root ++ "/" ++ f)
        ++ descent) ∧
    ((fileEntries children).filter (fun f =>
        !(localSpec env skipVcs exclude root (fileEntries children) f))).Sublist
      (fileEntries children) := by
  constructor
  · exact ⟨walkInto env skipVcs exclude
      (localSpec env skipVcs exclude root (fileEntries children)) root children,
      by rw [walkDir]⟩
  · exact List.filter_sublist _

end FsLint
